import Mathlib

/-!
Verification of the SEURA audio-to-polar-spectrogram pipeline
(`audio_to_image.py`) against its design specification.

The numeric pipeline is shallowly embedded: audio samples and transform
coefficients are real numbers, the float constants of the program are exact
rationals, list/array shapes are `List` lengths or `Fin`-indexed functions,
and Python's floor division on possibly-negative integers is `Int.fdiv`.
-/

namespace SEURA

/-- Perceptual frequency band of bin `index`, translated from
`get_frequency_band`: the bin's physical frequency is
`index * sample_rate / frame_size` and the band is chosen by a chain of
half-open range tests, with 7 as the "out of range" fallback. -/
def get_frequency_band (index sample_rate frame_size : ℕ) : ℕ :=
  let freq : ℚ := index * sample_rate / frame_size
  if 0 ≤ freq ∧ freq < 60 then 0
  else if 60 ≤ freq ∧ freq < 250 then 1
  else if 250 ≤ freq ∧ freq < 500 then 2
  else if 500 ≤ freq ∧ freq < 2000 then 3
  else if 2000 ≤ freq ∧ freq < 4000 then 4
  else if 4000 ≤ freq ∧ freq < 6000 then 5
  else if 6000 ≤ freq then 6
  else 7

/-- Hue of a band, translated from `band_to_hue`: indexing into the fixed
table `[0, 0.1, 0.2, 0.4, 0.6, 0.8, 0.9]` (the source indexes the bare list,
which is only in range for bands 0..6). -/
def band_to_hue (band : ℕ) : ℚ :=
  ([0, 0.1, 0.2, 0.4, 0.6, 0.8, 0.9] : List ℚ).getD band 0

/-- Number of frequency bins inside a band (valid for frame size 1024),
translated from `band_to_numbins`. -/
def band_to_numbins (band : ℕ) : ℕ :=
  if band = 0 then 2
  else if band = 1 then 4
  else if band = 2 then 5
  else if band = 3 then 32
  else if band = 4 then 43
  else if band = 5 then 42
  else if band = 6 then 384
  else 0

/-- Band id determined by the half-open frequency ranges exactly as the
specification words them: [0,60)→0, [60,250)→1, [250,500)→2, [500,2000)→3,
[2000,4000)→4, [4000,6000)→5, [6000,∞)→6, sentinel 7 otherwise. -/
def spec_band_of_freq (freq : ℚ) : ℕ :=
  if 0 ≤ freq ∧ freq < 60 then 0
  else if 60 ≤ freq ∧ freq < 250 then 1
  else if 250 ≤ freq ∧ freq < 500 then 2
  else if 500 ≤ freq ∧ freq < 2000 then 3
  else if 2000 ≤ freq ∧ freq < 4000 then 4
  else if 4000 ≤ freq ∧ freq < 6000 then 5
  else if 6000 ≤ freq then 6
  else 7

/-- Entry (i,j) of `log_mdct = np.log10(abs_mdct + 1)` in `mdct_to_hsv`.
The transform entries are exact rationals (floats); the logarithm is real. -/
noncomputable def log_mdct {m n : ℕ} (M : Fin (m + 1) → Fin (n + 1) → ℚ)
    (i : Fin (m + 1)) (j : Fin (n + 1)) : ℝ :=
  Real.logb 10 (|(M i j : ℝ)| + 1)

/-- `min_log_value = np.min(log_mdct)` in `mdct_to_hsv`: the minimum over
the whole (nonempty) matrix. -/
noncomputable def min_log_value {m n : ℕ} (M : Fin (m + 1) → Fin (n + 1) → ℚ) : ℝ :=
  Finset.univ.inf' Finset.univ_nonempty
    (fun p : Fin (m + 1) × Fin (n + 1) => log_mdct M p.1 p.2)

/-- `max_log_value = np.max(log_mdct)` in `mdct_to_hsv`. -/
noncomputable def max_log_value {m n : ℕ} (M : Fin (m + 1) → Fin (n + 1) → ℚ) : ℝ :=
  Finset.univ.sup' Finset.univ_nonempty
    (fun p : Fin (m + 1) × Fin (n + 1) => log_mdct M p.1 p.2)

/-- `brightness = (log_mdct - min_log_value) / (max_log_value - min_log_value)`
in `mdct_to_hsv` (global min-max normalization over the entire matrix). -/
noncomputable def brightness {m n : ℕ} (M : Fin (m + 1) → Fin (n + 1) → ℚ)
    (i : Fin (m + 1)) (j : Fin (n + 1)) : ℝ :=
  (log_mdct M i j - min_log_value M) / (max_log_value M - min_log_value M)

/-- `max_abs_value = np.max(np.abs(mdct_array))` in `mdct_to_hsv`. -/
def max_abs_value {m n : ℕ} (M : Fin (m + 1) → Fin (n + 1) → ℚ) : ℚ :=
  Finset.univ.sup' Finset.univ_nonempty
    (fun p : Fin (m + 1) × Fin (n + 1) => |M p.1 p.2|)

/-- `scaling_factor = 0.2 / max_abs_value` in `mdct_to_hsv`. -/
def scaling_factor {m n : ℕ} (M : Fin (m + 1) → Fin (n + 1) → ℚ) : ℚ :=
  0.2 / max_abs_value M

/-- Entry (i,j) of the array assigned to the local variable `saturation` in
`mdct_to_hsv`: `saturation = 0.8 + scaling_factor * mdct_array`. -/
def saturation_value {m n : ℕ} (M : Fin (m + 1) → Fin (n + 1) → ℚ)
    (i : Fin (m + 1)) (j : Fin (n + 1)) : ℚ :=
  0.8 + scaling_factor M * M i j

/-- Entry `col` of the per-bin hue vector built by the loop in `mdct_to_hsv`:
`hue[col] = band_to_hue(get_frequency_band(col, sample_rate, frame_size))`,
then broadcast over all frames. -/
def hue_value (sample_rate frame_size col : ℕ) : ℚ :=
  band_to_hue (get_frequency_band col sample_rate frame_size)

/-- The Color Encoder `mdct_to_hsv`: cell (i,j) of the stacked
(hue, saturation, brightness) array. The `saturation` argument mirrors the
source's `saturation=1` keyword parameter, which the source unconditionally
shadows with the computed array before stacking. -/
noncomputable def mdct_to_hsv {m n : ℕ} (M : Fin (m + 1) → Fin (n + 1) → ℚ)
    (frame_size sample_rate : ℕ) (saturation : ℚ)
    (i : Fin (m + 1)) (j : Fin (n + 1)) : ℝ × ℝ × ℝ :=
  ((hue_value sample_rate frame_size (j : ℕ) : ℝ),
    (saturation_value M i j : ℝ), brightness M i j)

/-- All-zero 1-frame transform matrix: what `apply_mdct` produces on one
frame of digital silence (frame size 1024, 512 bins). -/
def silence_matrix : Fin 1 → Fin 512 → ℚ := fun _ _ => 0

/-- 1 x 1 matrix with the single entry 1: nonzero, but all entries share one
absolute value. -/
def const_one_matrix : Fin 1 → Fin 1 → ℚ := fun _ _ => 1

/-- 1 x 2 matrix with entries 0 and 3: absolute values differ. -/
def step_matrix : Fin 1 → Fin 2 → ℚ := fun _ j => if j = 0 then 0 else 3

/-- Outer radius of the polar disc in inches, from `plot_polar_spectrogram`
(`max_radius = 10`). -/
def max_radius : ℚ := 10

/-- Inner radius of the polar disc, from `plot_polar_spectrogram`
(`min_radius = max_radius / 8`). -/
def min_radius : ℚ := max_radius / 8

/-- Element i of `np.linspace(min_radius, max_radius, 8)`: eight equally
spaced radii from `min_radius` up to `max_radius` (exact for i in 0..7). -/
def linspace_radii (i : ℕ) : ℚ := min_radius + i * (max_radius - min_radius) / 7

/-- Element j of `band_radii = np.linspace(min_radius, max_radius, 8)[::-1]`,
the boundary radii taken in reverse (decreasing) order. -/
def band_radii (j : ℕ) : ℚ := linspace_radii (7 - j)

/-- `outer_radius = band_radii[band]` in the per-band loop of
`plot_polar_spectrogram`. -/
def outer_radius (band : ℕ) : ℚ := band_radii band

/-- `inner_radius = band_radii[band + 1]` in the per-band loop of
`plot_polar_spectrogram`. -/
def inner_radius (band : ℕ) : ℚ := band_radii (band + 1)

/-- The sine (half-cosine) analysis window of `apply_mdct`:
`w[i] = sin(pi * (i + 0.5) / frame_size)`. -/
noncomputable def sine_window (frame_size i : ℕ) : ℝ :=
  Real.sin (Real.pi * (i + 1 / 2) / frame_size)

/-- Sample j of the waveform (out-of-range reads never happen in
`apply_mdct` because every frame satisfies `start + frame_size ≤ len`). -/
def sampleAt (audio : List ℝ) (j : ℕ) : ℝ := audio.getD j 0

/-- `windowed_frame = audio[start:end] * sin(pi * (arange(F) + 0.5) / F)`
from `apply_mdct`. -/
noncomputable def windowed_frame (audio : List ℝ) (frame_size start : ℕ) : List ℝ :=
  (List.range frame_size).map
    (fun i => sampleAt audio (start + i) * sine_window frame_size i)

/-- Coefficient k of the orthonormal type-2 discrete cosine transform,
scipy's `fftpack.dct(x, type=2, norm='ortho')`:
`y[k] = c_k * sum_i x[i] * cos(pi * k * (2*i + 1) / (2*N))` with
`c_0 = sqrt(1/N)` and `c_k = sqrt(2/N)` for k > 0. -/
noncomputable def dct2_ortho (x : List ℝ) (k : ℕ) : ℝ :=
  (if k = 0 then Real.sqrt (1 / x.length) else Real.sqrt (2 / x.length)) *
    ∑ i ∈ Finset.range x.length,
      x.getD i 0 * Real.cos (Real.pi * k * (2 * i + 1) / (2 * x.length))

/-- Row n of `mdct_frames` in `apply_mdct`: the full frame-size DCT-II of
the windowed frame starting at sample `start`. -/
noncomputable def mdct_frame (audio : List ℝ) (frame_size start : ℕ) : List ℝ :=
  (List.range frame_size).map (fun k => dct2_ortho (windowed_frame audio frame_size start) k)

/-- `num_frames = 1 + (len(audio) - frame_size) // hop_size` from
`apply_mdct`, with Python's floor division on possibly negative operands. -/
def num_frames (N frame_size hop_size : ℕ) : ℤ :=
  1 + Int.fdiv ((N : ℤ) - (frame_size : ℤ)) (hop_size : ℤ)

/-- The Framer/Transformer `apply_mdct`: one row per frame index n in
`range(num_frames)`, each row the DCT-II of the windowed frame at start
`n * hop_size` restricted to the first `frame_size // 2` coefficients
(`mdct_out = mdct_frames[:, :frame_size//2]`). The `sample_rate` argument is
kept from the source signature (the source only uses it for an unused
`fftfreq` computation). -/
noncomputable def apply_mdct (audio : List ℝ) (frame_size hop_size sample_rate : ℕ) :
    List (List ℝ) :=
  (List.range (num_frames audio.length frame_size hop_size).toNat).map
    (fun n => (mdct_frame audio frame_size (n * hop_size)).take (frame_size / 2))

/-- Row n of the Transform matrix as the specification words it: the first
F/2 coefficients of the orthonormal DCT-II applied to the samples
[n*H, n*H+F) multiplied elementwise by the window w[i] = sin(pi*(i+0.5)/F). -/
noncomputable def spec_transform_row (audio : List ℝ) (F H n : ℕ) : List ℝ :=
  (List.range (F / 2)).map (fun k =>
    dct2_ortho ((List.range F).map (fun i =>
      sampleAt audio (n * H + i) * Real.sin (Real.pi * (i + 1 / 2) / F))) k)

theorem spec_band_of_freq_le_six (q : ℚ) (hq : 0 ≤ q) : spec_band_of_freq q ≤ 6 := by
  unfold spec_band_of_freq
  split_ifs with h1 h2 h3 h4 h5 h6 h7 <;> try omega
  exfalso
  push_neg at h1 h2 h3 h4 h5 h6 h7
  have c1 : (60 : ℚ) ≤ q := h1 hq
  have c2 : (250 : ℚ) ≤ q := h2 c1
  have c3 : (500 : ℚ) ≤ q := h3 c2
  have c4 : (2000 : ℚ) ≤ q := h4 c3
  have c5 : (4000 : ℚ) ≤ q := h5 c4
  have c6 : (6000 : ℚ) ≤ q := h6 c5
  linarith

/-- Claim C6: for a frame size that is a positive power of two, a positive
sample rate and a bin index below frameSize/2, the band mapper returns a
single band id in 0..6 determined by the specified half-open ranges on
freq = k * sr / F; the sentinel branch (band 7) is unreachable. -/
theorem get_frequency_band_in_range (k sr F p : ℕ) (hF : F = 2 ^ p) (hp : 0 < p)
    (hsr : 0 < sr) (hk : k < F / 2) :
    get_frequency_band k sr F = spec_band_of_freq ((k : ℚ) * sr / F) ∧
    get_frequency_band k sr F ≤ 6 ∧ get_frequency_band k sr F ≠ 7 := by
  have hfreq : (0 : ℚ) ≤ (k : ℚ) * sr / F := by positivity
  have heq : get_frequency_band k sr F = spec_band_of_freq ((k : ℚ) * sr / F) := rfl
  have hle : get_frequency_band k sr F ≤ 6 := by
    rw [heq]; exact spec_band_of_freq_le_six _ hfreq
  exact ⟨heq, hle, by omega⟩

/-- Witness for C6 at k = 100, sr = 44100, F = 1024 = 2^10. -/
theorem get_frequency_band_in_range_witness :
    (1024 = 2 ^ 10 ∧ 0 < 10 ∧ 0 < 44100 ∧ 100 < 1024 / 2) ∧
    (get_frequency_band 100 44100 1024 = spec_band_of_freq ((100 : ℚ) * 44100 / 1024) ∧
      get_frequency_band 100 44100 1024 ≤ 6 ∧ get_frequency_band 100 44100 1024 ≠ 7) :=
  ⟨by norm_num,
    get_frequency_band_in_range 100 44100 1024 10 (by norm_num) (by norm_num)
      (by norm_num) (by norm_num)⟩

/-- Claim C8: the per-band bin counts of the band mapper sum over the 7 bands
to exactly 512, which is frameSize/2 for the configured frame size 1024. -/
theorem band_to_numbins_sum :
    (∑ b ∈ Finset.range 7, band_to_numbins b) = 512 ∧ 512 = 1024 / 2 := by
  decide

theorem num_frames_toNat (N F H : ℕ) (hN : F ≤ N) :
    (num_frames N F H).toNat = 1 + (N - F) / H := by
  unfold num_frames
  rw [← Int.ofNat_sub hN, ← Int.ofNat_fdiv]
  have h2 : (1 : ℤ) + ((N - F) / H : ℕ) = ((1 + (N - F) / H : ℕ) : ℤ) := by
    push_cast
    ring
  rw [h2, Int.toNat_ofNat]

theorem mdct_row_take_eq (audio : List ℝ) (F H n : ℕ) :
    (mdct_frame audio F (n * H)).take (F / 2) = spec_transform_row audio F H n := by
  unfold mdct_frame spec_transform_row windowed_frame sine_window
  rw [← List.map_take, List.take_range, Nat.min_eq_left (Nat.div_le_self F 2)]

/-- Claim C1: for a waveform of N samples with N at least the frame size F
and hop size H = F/2, `apply_mdct` returns a matrix with exactly
1 + (N - F) / H rows and F/2 columns whose row n is the first F/2
coefficients of the orthonormal DCT-II of the windowed samples
[n*H, n*H+F). -/
theorem apply_mdct_shape_and_rows (audio : List ℝ) (F H sr : ℕ)
    (hH : 0 < H) (hHF : H = F / 2) (hN : F ≤ audio.length) :
    (apply_mdct audio F H sr).length = 1 + (audio.length - F) / H ∧
    (∀ row ∈ apply_mdct audio F H sr, row.length = F / 2) ∧
    ∀ n (hn : n < (apply_mdct audio F H sr).length),
      (apply_mdct audio F H sr).get ⟨n, hn⟩ = spec_transform_row audio F H n := by
  refine ⟨?_, ?_, ?_⟩
  · rw [apply_mdct, List.length_map, List.length_range, num_frames_toNat _ _ _ hN]
  · intro row hrow
    rw [apply_mdct, List.mem_map] at hrow
    obtain ⟨n, _, rfl⟩ := hrow
    rw [mdct_row_take_eq]
    simp [spec_transform_row]
  · intro n hn
    simp only [apply_mdct, List.get_eq_getElem, List.getElem_map, List.getElem_range]
    exact mdct_row_take_eq audio F H n

/-- Witness for C1 with a 6-sample waveform, frame size 4, hop size 2. -/
theorem apply_mdct_shape_and_rows_witness :
    (0 < 2 ∧ 2 = 4 / 2 ∧ 4 ≤ (List.replicate 6 (0 : ℝ)).length) ∧
    ((apply_mdct (List.replicate 6 (0 : ℝ)) 4 2 8).length
        = 1 + ((List.replicate 6 (0 : ℝ)).length - 4) / 2 ∧
      (∀ row ∈ apply_mdct (List.replicate 6 (0 : ℝ)) 4 2 8, row.length = 4 / 2) ∧
      ∀ n (hn : n < (apply_mdct (List.replicate 6 (0 : ℝ)) 4 2 8).length),
        (apply_mdct (List.replicate 6 (0 : ℝ)) 4 2 8).get ⟨n, hn⟩
          = spec_transform_row (List.replicate 6 (0 : ℝ)) 4 2 n) :=
  ⟨⟨by norm_num, by norm_num, by norm_num⟩,
    apply_mdct_shape_and_rows (List.replicate 6 (0 : ℝ)) 4 2 8 (by norm_num)
      (by norm_num) (by norm_num)⟩

/-- Claim C3: the code does not fail fast on inputs shorter than one frame.
For any waveform shorter than 1024 samples the frame count is at most 0, and
concretely a 600-sample waveform yields frame count 0 and `apply_mdct`
silently returns the empty matrix rather than raising an input error. -/
theorem apply_mdct_short_input_silent_empty :
    num_frames 600 1024 512 = 0 ∧
    apply_mdct (List.replicate 600 (0 : ℝ)) 1024 512 44100 = [] ∧
    ∀ N : ℕ, N < 1024 → num_frames N 1024 512 ≤ 0 := by
  refine ⟨by decide, ?_, ?_⟩
  · rw [apply_mdct]
    have h : (num_frames (List.replicate 600 (0 : ℝ)).length 1024 512).toNat = 0 := by
      rw [List.length_replicate]
      decide
    rw [h]
    rfl
  · intro N hN
    unfold num_frames
    push_cast
    have hneg : (N : ℤ) - 1024 < 0 := by
      omega
    have := Int.fdiv_neg' hneg (by norm_num : (0 : ℤ) < 512)
    omega

/-- Witness for C3 at a 700-sample input. -/
theorem apply_mdct_short_input_silent_empty_witness :
    700 < 1024 ∧ num_frames 700 1024 512 ≤ 0 :=
  ⟨by norm_num, apply_mdct_short_input_silent_empty.2.2 700 (by norm_num)⟩

theorem max_abs_value_pos {m n : ℕ} (M : Fin (m + 1) → Fin (n + 1) → ℚ)
    (hM : ∃ i j, M i j ≠ 0) : 0 < max_abs_value M := by
  obtain ⟨i0, j0, h0⟩ := hM
  have h1 : 0 < |M i0 j0| := abs_pos.mpr h0
  have h2 : |M i0 j0| ≤ max_abs_value M :=
    Finset.le_sup' (f := fun p : Fin (m + 1) × Fin (n + 1) => |M p.1 p.2|)
      (Finset.mem_univ (i0, j0))
  linarith

theorem abs_le_max_abs_value {m n : ℕ} (M : Fin (m + 1) → Fin (n + 1) → ℚ)
    (i : Fin (m + 1)) (j : Fin (n + 1)) : |M i j| ≤ max_abs_value M :=
  Finset.le_sup' (f := fun p : Fin (m + 1) × Fin (n + 1) => |M p.1 p.2|)
    (Finset.mem_univ (i, j))

/-- Claim C5: on a non-all-zero matrix the saturation channel is
0.8 + (0.2 / max abs) * M elementwise, and every saturation value lies in
[0.6, 1.0]. -/
theorem saturation_linear_and_bounded {m n : ℕ} (M : Fin (m + 1) → Fin (n + 1) → ℚ)
    (frame_size sample_rate : ℕ) (s : ℚ) (hM : ∃ i j, M i j ≠ 0) :
    (∀ i j, (mdct_to_hsv M frame_size sample_rate s i j).2.1
      = (saturation_value M i j : ℝ)) ∧
    (∀ i j, saturation_value M i j = 0.8 + (0.2 / max_abs_value M) * M i j) ∧
    ∀ i j, 0.6 ≤ saturation_value M i j ∧ saturation_value M i j ≤ 1 := by
  have hpos := max_abs_value_pos M hM
  refine ⟨fun i j => rfl, fun i j => rfl, fun i j => ?_⟩
  have habs := abs_le_max_abs_value M i j
  have hsc : scaling_factor M = 0.2 / max_abs_value M := rfl
  have ht : |scaling_factor M * M i j| ≤ 0.2 := by
    rw [abs_mul, hsc, abs_of_pos (by positivity : (0 : ℚ) < 0.2 / max_abs_value M)]
    calc 0.2 / max_abs_value M * |M i j|
        ≤ 0.2 / max_abs_value M * max_abs_value M := by
          exact mul_le_mul_of_nonneg_left habs (by positivity)
      _ = 0.2 := div_mul_cancel₀ _ (ne_of_gt hpos)
  obtain ⟨hlo, hhi⟩ := abs_le.mp ht
  unfold saturation_value
  constructor <;> linarith

/-- Witness for C5 on the 1 x 1 matrix with entry 1. -/
theorem saturation_linear_and_bounded_witness :
    (∃ i j, const_one_matrix i j ≠ 0) ∧
    ((∀ i j, (mdct_to_hsv const_one_matrix 1024 44100 1 i j).2.1
        = (saturation_value const_one_matrix i j : ℝ)) ∧
      (∀ i j, saturation_value const_one_matrix i j
        = 0.8 + (0.2 / max_abs_value const_one_matrix) * const_one_matrix i j) ∧
      ∀ i j, 0.6 ≤ saturation_value const_one_matrix i j ∧
        saturation_value const_one_matrix i j ≤ 1) :=
  ⟨⟨0, 0, one_ne_zero⟩,
    saturation_linear_and_bounded const_one_matrix 1024 44100 1 ⟨0, 0, one_ne_zero⟩⟩

/-- Claim C10: the output of the Color Encoder is identical for any two
values of its `saturation` parameter; the parameter is shadowed by the
computed saturation array before the channels are stacked. -/
theorem mdct_to_hsv_ignores_saturation_param {m n : ℕ}
    (M : Fin (m + 1) → Fin (n + 1) → ℚ) (frame_size sample_rate : ℕ)
    (s₁ s₂ : ℚ) (i : Fin (m + 1)) (j : Fin (n + 1)) :
    mdct_to_hsv M frame_size sample_rate s₁ i j
      = mdct_to_hsv M frame_size sample_rate s₂ i j := rfl

/-- Claim C7: in the HSV array the hue of a cell depends only on its bin
index (never on its frame index), equals the hue of the bin's band from the
fixed table, and is therefore equal for bins of the same band. -/
theorem hsv_hue_constant_per_bin {m n : ℕ} (M : Fin (m + 1) → Fin (n + 1) → ℚ)
    (frame_size sample_rate : ℕ) (s : ℚ) (i i' : Fin (m + 1)) (j j' : Fin (n + 1))
    (h : get_frequency_band (j : ℕ) sample_rate frame_size
      = get_frequency_band (j' : ℕ) sample_rate frame_size) :
    (mdct_to_hsv M frame_size sample_rate s i j).1
      = (mdct_to_hsv M frame_size sample_rate s i' j).1 ∧
    (mdct_to_hsv M frame_size sample_rate s i j).1
      = (band_to_hue (get_frequency_band (j : ℕ) sample_rate frame_size) : ℝ) ∧
    (mdct_to_hsv M frame_size sample_rate s i j).1
      = (mdct_to_hsv M frame_size sample_rate s i j').1 := by
  refine ⟨rfl, rfl, ?_⟩
  simp only [mdct_to_hsv, hue_value, h]

/-- Witness for C7 at a concrete matrix, frame size 1024, sample rate 44100,
two bins (0 and 1) that fall in the same band. -/
theorem hsv_hue_constant_per_bin_witness :
    (get_frequency_band ((0 : Fin 2) : ℕ) 44100 1024
      = get_frequency_band ((1 : Fin 2) : ℕ) 44100 1024) ∧
    ((mdct_to_hsv step_matrix 1024 44100 1 0 0).1
      = (mdct_to_hsv step_matrix 1024 44100 1 0 0).1 ∧
    (mdct_to_hsv step_matrix 1024 44100 1 0 0).1
      = (band_to_hue (get_frequency_band ((0 : Fin 2) : ℕ) 44100 1024) : ℝ) ∧
    (mdct_to_hsv step_matrix 1024 44100 1 0 0).1
      = (mdct_to_hsv step_matrix 1024 44100 1 0 1).1) :=
  ⟨by norm_num [get_frequency_band],
    hsv_hue_constant_per_bin step_matrix 1024 44100 1 0 0 0 1
      (by norm_num [get_frequency_band])⟩

theorem sampleAt_replicate_zero (N j : ℕ) : sampleAt (List.replicate N (0 : ℝ)) j = 0 := by
  unfold sampleAt
  rw [List.getD_eq_getElem?_getD, List.getElem?_replicate]
  split <;> rfl

theorem windowed_frame_replicate_zero (N F s i : ℕ) :
    (windowed_frame (List.replicate N (0 : ℝ)) F s).getD i 0 = 0 := by
  unfold windowed_frame
  rw [List.getD_eq_getElem?_getD, List.getElem?_map]
  rcases lt_or_le i F with h | h
  · rw [List.getElem?_range h]
    simp [sampleAt_replicate_zero]
  · rw [List.getElem?_eq_none (by simpa using h)]
    rfl

theorem dct2_ortho_zero (x : List ℝ) (hx : ∀ i, x.getD i 0 = 0) (k : ℕ) :
    dct2_ortho x k = 0 := by
  unfold dct2_ortho
  rw [Finset.sum_eq_zero, mul_zero]
  intro i _
  rw [hx i, zero_mul]

theorem log_mdct_silence (i : Fin 1) (j : Fin 512) : log_mdct silence_matrix i j = 0 := by
  simp [log_mdct, silence_matrix, Real.logb_one]

/-- Claim C2: nothing in the code detects digital silence. On an all-zero
waveform `apply_mdct` returns the all-zero matrix, and in `mdct_to_hsv` both
normalization denominators are exactly zero -- `max_abs_value` (the
saturation divisor) is 0 and `max_log_value - min_log_value` (the brightness
divisor) is 0 -- yet the encoder has no degenerate-input branch: in floating
point these divisions produce NaN arrays instead of a raised error. -/
theorem silence_not_detected :
    (∀ row ∈ apply_mdct (List.replicate 1536 (0 : ℝ)) 1024 512 44100,
      ∀ x ∈ row, x = 0) ∧
    max_abs_value silence_matrix = 0 ∧
    max_log_value silence_matrix - min_log_value silence_matrix = 0 := by
  refine ⟨?_, ?_, ?_⟩
  · intro row hrow x hx
    rw [apply_mdct, List.mem_map] at hrow
    obtain ⟨n, _, rfl⟩ := hrow
    have hx' := List.mem_of_mem_take hx
    rw [mdct_frame, List.mem_map] at hx'
    obtain ⟨k, _, rfl⟩ := hx'
    exact dct2_ortho_zero _ (fun i => windowed_frame_replicate_zero 1536 1024 (n * 512) i) k
  · refine le_antisymm (Finset.sup'_le _ _ fun b _ => ?_) ?_
    · simp [silence_matrix]
    · have hle := Finset.le_sup'
        (f := fun p : Fin 1 × Fin 512 => |silence_matrix p.1 p.2|)
        (Finset.mem_univ ((0 : Fin 1), (0 : Fin 512)))
      have h00 : |silence_matrix 0 0| = (0 : ℚ) := by
        simp [silence_matrix]
      exact le_of_eq_of_le h00.symm hle
  · have hmax : max_log_value silence_matrix = 0 := by
      refine le_antisymm (Finset.sup'_le _ _ fun b _ => le_of_eq (log_mdct_silence b.1 b.2)) ?_
      have hle := Finset.le_sup'
        (f := fun p : Fin 1 × Fin 512 => log_mdct silence_matrix p.1 p.2)
        (Finset.mem_univ ((0 : Fin 1), (0 : Fin 512)))
      exact le_of_eq_of_le (log_mdct_silence 0 0).symm hle
    have hmin : min_log_value silence_matrix = 0 := by
      refine le_antisymm ?_ (Finset.le_inf' _ _ fun b _ => ge_of_eq (log_mdct_silence b.1 b.2))
      have hge := Finset.inf'_le
        (f := fun p : Fin 1 × Fin 512 => log_mdct silence_matrix p.1 p.2)
        (Finset.mem_univ ((0 : Fin 1), (0 : Fin 512)))
      exact le_of_le_of_eq hge (log_mdct_silence 0 0)
    rw [hmax, hmin, sub_zero]

theorem log_mdct_le {m n : ℕ} (M : Fin (m + 1) → Fin (n + 1) → ℚ)
    {i i' : Fin (m + 1)} {j j' : Fin (n + 1)} (h : |M i j| ≤ |M i' j'|) :
    log_mdct M i j ≤ log_mdct M i' j' := by
  unfold log_mdct
  have h' : |(M i j : ℝ)| ≤ |(M i' j' : ℝ)| := by
    rw [← Rat.cast_abs, ← Rat.cast_abs]
    exact_mod_cast h
  exact Real.logb_le_logb_of_le (by norm_num) (by positivity) (by linarith)

theorem log_mdct_lt {m n : ℕ} (M : Fin (m + 1) → Fin (n + 1) → ℚ)
    {i i' : Fin (m + 1)} {j j' : Fin (n + 1)} (h : |M i j| < |M i' j'|) :
    log_mdct M i j < log_mdct M i' j' := by
  unfold log_mdct
  have h' : |(M i j : ℝ)| < |(M i' j' : ℝ)| := by
    rw [← Rat.cast_abs, ← Rat.cast_abs]
    exact_mod_cast h
  exact Real.logb_lt_logb (by norm_num) (by positivity) (by linarith)

theorem min_log_value_le {m n : ℕ} (M : Fin (m + 1) → Fin (n + 1) → ℚ)
    (i : Fin (m + 1)) (j : Fin (n + 1)) : min_log_value M ≤ log_mdct M i j :=
  Finset.inf'_le (f := fun p : Fin (m + 1) × Fin (n + 1) => log_mdct M p.1 p.2)
    (Finset.mem_univ (i, j))

theorem le_max_log_value {m n : ℕ} (M : Fin (m + 1) → Fin (n + 1) → ℚ)
    (i : Fin (m + 1)) (j : Fin (n + 1)) : log_mdct M i j ≤ max_log_value M :=
  Finset.le_sup' (f := fun p : Fin (m + 1) × Fin (n + 1) => log_mdct M p.1 p.2)
    (Finset.mem_univ (i, j))

theorem brightness_denom_pos {m n : ℕ} (M : Fin (m + 1) → Fin (n + 1) → ℚ)
    (h : ∃ i j i' j', |M i j| ≠ |M i' j'|) :
    0 < max_log_value M - min_log_value M := by
  obtain ⟨i1, j1, i2, j2, hne⟩ := h
  rcases lt_or_gt_of_ne hne with hlt | hgt
  · have h1 := min_log_value_le M i1 j1
    have h2 := le_max_log_value M i2 j2
    have h3 := log_mdct_lt M hlt
    linarith
  · have h1 := min_log_value_le M i2 j2
    have h2 := le_max_log_value M i1 j1
    have h3 := log_mdct_lt M hgt
    linarith

/-- Claim C4, amended: for every transform matrix whose entries do not all
share a single absolute value, brightness is the global min-max
normalization of L = log10(|M|+1): every value lies in [0,1], every cell of
maximal magnitude maps to exactly 1 and every cell of minimal magnitude maps
to exactly 0. The claim's original precondition (M not all zero) is too
weak: see the counterexample theorem. -/
theorem brightness_minmax_normalized {m n : ℕ} (M : Fin (m + 1) → Fin (n + 1) → ℚ)
    (frame_size sample_rate : ℕ) (s : ℚ)
    (hM : ∃ i j i' j', |M i j| ≠ |M i' j'|) :
    (∀ i j, (mdct_to_hsv M frame_size sample_rate s i j).2.2 = brightness M i j) ∧
    (∀ i j, brightness M i j
      = (log_mdct M i j - min_log_value M) / (max_log_value M - min_log_value M)) ∧
    (∀ i j, 0 ≤ brightness M i j ∧ brightness M i j ≤ 1) ∧
    (∀ i j, (∀ i' j', |M i' j'| ≤ |M i j|) → brightness M i j = 1) ∧
    (∀ i j, (∀ i' j', |M i j| ≤ |M i' j'|) → brightness M i j = 0) := by
  have hd := brightness_denom_pos M hM
  refine ⟨fun i j => rfl, fun i j => rfl, fun i j => ?_, fun i j hmax => ?_,
    fun i j hmin => ?_⟩
  · constructor
    · exact div_nonneg (by linarith [min_log_value_le M i j]) (le_of_lt hd)
    · rw [brightness, div_le_one hd]
      linarith [le_max_log_value M i j]
  · have hLmax : log_mdct M i j = max_log_value M :=
      le_antisymm (le_max_log_value M i j)
        (Finset.sup'_le _ _ fun b _ => log_mdct_le M (hmax b.1 b.2))
    rw [brightness, hLmax]
    exact div_self (ne_of_gt hd)
  · have hLmin : log_mdct M i j = min_log_value M :=
      le_antisymm (Finset.le_inf' _ _ fun b _ => log_mdct_le M (hmin b.1 b.2))
        (min_log_value_le M i j)
    rw [brightness, hLmin, sub_self, zero_div]

/-- Counterexample to C4 as stated: the 1 x 1 matrix with single entry 1 is
not all-zero and its only cell has maximal magnitude, but its brightness is
not 1: min log equals max log, so the normalization divides zero by zero
(NaN in the floating-point source, 0 in this model). -/
theorem brightness_nonzero_claim_false :
    (∃ i j, const_one_matrix i j ≠ 0) ∧
    (∀ i' j', |const_one_matrix i' j'| ≤ |const_one_matrix 0 0|) ∧
    brightness const_one_matrix 0 0 ≠ 1 := by
  refine ⟨⟨0, 0, one_ne_zero⟩, fun i' j' => le_refl _, ?_⟩
  have hmin : min_log_value const_one_matrix = log_mdct const_one_matrix 0 0 :=
    le_antisymm (min_log_value_le _ 0 0)
      (Finset.le_inf' _ _ fun b _ => le_refl _)
  have hzero : brightness const_one_matrix 0 0 = 0 := by
    rw [brightness, hmin, sub_self, zero_div]
  rw [hzero]
  norm_num

/-- Witness for the amended C4 on the 1 x 2 matrix with entries 0 and 3. -/
theorem brightness_minmax_normalized_witness :
    (∃ i j i' j', |step_matrix i j| ≠ |step_matrix i' j'|) ∧
    ((∀ i j, (mdct_to_hsv step_matrix 1024 44100 1 i j).2.2 = brightness step_matrix i j) ∧
    (∀ i j, brightness step_matrix i j
      = (log_mdct step_matrix i j - min_log_value step_matrix)
        / (max_log_value step_matrix - min_log_value step_matrix)) ∧
    (∀ i j, 0 ≤ brightness step_matrix i j ∧ brightness step_matrix i j ≤ 1) ∧
    (∀ i j, (∀ i' j', |step_matrix i' j'| ≤ |step_matrix i j|) →
      brightness step_matrix i j = 1) ∧
    (∀ i j, (∀ i' j', |step_matrix i j| ≤ |step_matrix i' j'|) →
      brightness step_matrix i j = 0)) :=
  ⟨⟨0, 0, 0, 1, by norm_num [step_matrix]⟩,
    brightness_minmax_normalized step_matrix 1024 44100 1
      ⟨0, 0, 0, 1, by norm_num [step_matrix]⟩⟩

/-- Claim C9: the renderer partitions [min_radius, max_radius] into 8 equally
spaced boundary radii taken in reverse order, so band 0 gets the outermost
annulus (outer edge max_radius), band 6 the innermost (inner edge min_radius),
and each band's annulus lies strictly further from the center than the next
band's. -/
theorem polar_band_radii_ordering (b : ℕ) (hb : b ≤ 5) :
    (∀ j, j < 7 → band_radii j - band_radii (j + 1) = (max_radius - min_radius) / 7) ∧
    outer_radius 0 = max_radius ∧ inner_radius 6 = min_radius ∧
    inner_radius b = outer_radius (b + 1) ∧
    outer_radius (b + 1) < outer_radius b ∧
    inner_radius (b + 1) < inner_radius b := by
  refine ⟨?_, ?_, ?_, ?_, ?_, ?_⟩
  · intro j hj
    interval_cases j <;>
      norm_num [band_radii, linspace_radii, max_radius, min_radius]
  · norm_num [outer_radius, band_radii, linspace_radii, max_radius, min_radius]
  · norm_num [inner_radius, band_radii, linspace_radii, max_radius, min_radius]
  · interval_cases b <;>
      norm_num [inner_radius, outer_radius, band_radii, linspace_radii,
        max_radius, min_radius]
  · interval_cases b <;>
      norm_num [inner_radius, outer_radius, band_radii, linspace_radii,
        max_radius, min_radius]
  · interval_cases b <;>
      norm_num [inner_radius, outer_radius, band_radii, linspace_radii,
        max_radius, min_radius]

/-- Witness for C9 at b = 0. -/
theorem polar_band_radii_ordering_witness :
    (0 : ℕ) ≤ 5 ∧
    ((∀ j, j < 7 → band_radii j - band_radii (j + 1) = (max_radius - min_radius) / 7) ∧
      outer_radius 0 = max_radius ∧ inner_radius 6 = min_radius ∧
      inner_radius 0 = outer_radius 1 ∧
      outer_radius 1 < outer_radius 0 ∧
      inner_radius 1 < inner_radius 0) :=
  ⟨by decide, polar_band_radii_ordering 0 (by decide)⟩

end SEURA
